import Mathlib

/-!
Shallow embedding of the tree-walking evaluator in src/src/interpret.rs.

The Rust interpreter keeps a value stack and a flat mutable binding map
(HashMap String Value).  Every eval_expr call pushes exactly one value net
onto the stack (or panics), so the stack is modelled by returning the value;
the binding map is threaded explicitly because eval_expr mutates it
observably (LetBinding and MatchSum remove the bound name on exit, which may
delete a previously shadowed entry).  Panics (including unwrap, assert and
out-of-bounds indexing) become the error value Err.panic.  The language has
general recursion through top-level lambdas, so evaluation takes a fuel
parameter; fuel is consumed only when entering a function body, which is the
only source of non-structural recursion, and exhaustion is the distinct
error Err.outOfFuel.  Integers are i64 in the source; they are modelled as
Int together with explicit signed 64-bit overflow behavior where it
matters: division and remainder panic on a zero divisor and on the single
overflowing pair of the least i64 with minus one, exactly as Rust i64
division does in every build profile, and otherwise truncate toward zero
(Int.tdiv, Int.tmod); sum, difference and product wrap two's-complement
(the release behavior; a build with overflow checks panics instead, and
every theorem asserting one of these three operators carries an in-range
hypothesis under which both behaviors coincide with the exact result).
Console output of the Print and Printi builtins is not modelled (they
return Unit); FileRead reads from an explicit file table in the
environment, mirroring read_to_string plus unwrap.
-/

namespace Interp

/-- Binary operators of the untyped AST that the evaluator handles
(interpret.rs lines 262 to 275); the evaluator panics on any other
operator, so only these appear in the model. -/
inductive Operator where
  | BinOpAdd
  | BinOpSub
  | BinOpMul
  | BinOpDiv
  | BinOpLess
  | BinOpLessEq
  | BinOpGreater
  | BinOpGreaterEq
  | BinOpEquals
  | BinOpAnd
  | BinOpOr
  | BinOpMod
  deriving DecidableEq

/-- The built-in functions the dispatcher implements (interpret.rs lines 51
to 124); all other identifiers hit the unimplemented default branch. -/
inductive BuiltInFn where
  | FileRead
  | Print
  | Printi
  | StringParseInt
  | StringGetFirst
  | StringSplit
  deriving DecidableEq

/-- A type handle is an index into the type list of the environment
(the Rust TypeHandle, of which only the index field is read). -/
abbrev TypeHandle := Nat

/-- A declared type definition.  The evaluator only inspects whether it is a
sum type and how many variants it has, so variants keep just their names;
NotSum stands for every other kind of type definition, which the
VariantConstructor case rejects with a panic. -/
inductive TypeDef where
  | Sum (variants : List String)
  | NotSum
  deriving DecidableEq

/-- Typed expressions (the ExprT enum restricted to the constructors the
evaluator handles; the type annotation paired with every node in the Rust
TypedExpr is never consulted by eval_expr and is dropped).  MatchSum arms
are (variant index, optional capture name, body) exactly as in the source. -/
inductive ExprT where
  | Tuple (es : List ExprT)
  | LetBinding (name : String) (rhs : ExprT) (body : ExprT)
  | MatchSum (matchee : ExprT) (arms : List (Nat × Option String × ExprT))
  | Application (lhs : ExprT) (args : List ExprT)
  | Lambda (p : String) (body : ExprT)
  | BooleanLiteral (b : Bool)
  | Conditional (cond : ExprT) (cons : ExprT) (alt : ExprT)
  | Symbol (s : String)
  | Record (fields : List ExprT)
  | BinaryOp (op : Operator) (lhs : ExprT) (rhs : ExprT)
  | StringLiteral (s : String)
  | IntegerLiteral (i : Int)
  | VariantConstructor (th : TypeHandle) (vi : Nat)
  | BuiltInFn (f : BuiltInFn)
  | FieldAccess (lhs : ExprT) (i : Nat)
  | Unit

/-- Runtime values (the Value enum of interpret.rs lines 5 to 15).  A
Function carries its parameter name, the captured-bindings snapshot and the
body expression (the Rust raw pointer into the immutable program tree is
modelled by the expression itself). -/
inductive Value where
  | Unit
  | Tuple (vs : List Value)
  | Function (p : String) (captured : List (String × Value)) (body : ExprT)
  | String (s : String)
  | Integer (i : Int)
  | Variant (th : TypeHandle) (vi : Nat) (payload : Value)
  | VariantConstructorFn (th : TypeHandle) (vi : Nat)
  | BuiltInFn (f : BuiltInFn)

/-- The local scope store: HashMap String Value modelled as an association
list holding at most one entry per key. -/
abbrev Bindings := List (String × Value)

/-- HashMap get: the value stored under a key, if any. -/
def lookupBinding : Bindings → String → Option Value
  | [], _ => none
  | (k, v) :: t, s => if k = s then some v else lookupBinding t s

/-- HashMap remove: delete the entry for a key (the Rust
bindings.remove call). -/
def removeBinding : Bindings → String → Bindings
  | [], _ => []
  | (k, v) :: t, s =>
    if k = s then removeBinding t s else (k, v) :: removeBinding t s

/-- HashMap insert: bind a key, replacing any existing entry (the Rust
bindings.insert call). -/
def insertBinding (σ : Bindings) (s : String) (v : Value) : Bindings :=
  (s, v) :: removeBinding σ s

/-- Generic association-list lookup used for the global tables. -/
def assocLookup {α : Type} : List (String × α) → String → Option α
  | [], _ => none
  | (k, v) :: t, s => if k = s then some v else assocLookup t s

/-- The read-only global program data produced by type checking: the root
scope mapping top-level names to their defining expressions (the type
component of each binding is ignored by the evaluator and dropped), the
list of type definitions indexed by type handles, and a file table standing
in for the host file system consulted by FileRead. -/
structure Env where
  rootScope : List (String × ExprT)
  types : List TypeDef
  fs : List (String × String)

/-- Evaluation outcomes that abort the run: panic covers every Rust panic
(explicit panics, unwrap, assert and out-of-bounds slicing), outOfFuel is
the artificial exhaustion of the recursion budget introduced by the
embedding. -/
inductive Err where
  | panic
  | outOfFuel
  deriving DecidableEq

/-- The least signed 64-bit integer, the value of i64 MIN. -/
def i64Min : Int := -9223372036854775808

/-- The greatest signed 64-bit integer, the value of i64 MAX. -/
def i64Max : Int := 9223372036854775807

/-- Reduction into the signed 64-bit range with two's-complement
wrap-around; it is the identity on every value already in range. -/
def wrapI64 (i : Int) : Int :=
  (i + 9223372036854775808) % 18446744073709551616 - 9223372036854775808

/-- Signed decimal integer parsing as done by str::parse for i64: an
optional sign followed by at least one ASCII digit, rejected (and hence
panicking through the unwrap at the call site) when the value falls
outside the signed 64-bit range, as the Rust parser reports overflow. -/
def parseI64 (s : String) : Option Int :=
  let core : List Char → Int → Option Int := fun ds sign =>
    if ds.isEmpty then none
    else if ds.all (fun c => c.isDigit) then
      let v : Int := sign * (ds.foldl (fun a c => a * 10 + ((c.toNat : Int) - 48)) 0)
      if i64Min ≤ v ∧ v ≤ i64Max then some v else none
    else none
  match s.data with
  | '+' :: rest => core rest 1
  | '-' :: rest => core rest (-1)
  | ds => core ds 1

/-- First index at or after the running counter at which the pattern occurs
as a contiguous sublist, scanning left to right: the character-level
counterpart of the byte-level str::find of the Rust StringSplit case.  For
valid UTF-8 the two agree because UTF-8 is self-synchronizing: an encoded
occurrence of a valid string inside valid text always starts and ends on
character boundaries, so byte indices of occurrences are in order-preserving
bijection with character indices. -/
def findSubAux (sep : List Char) : List Char → Nat → Option Nat
  | [], i => if sep.isPrefixOf [] then some i else none
  | x :: t, i =>
    if sep.isPrefixOf (x :: t) then some i else findSubAux sep t (i + 1)

/-- The built-in dispatcher (interpret.rs call_builtin, lines 51 to 124).
StringGetFirst mirrors the byte slicings s[0..1] and s[1..]: byte offset 1
is in range and on a character boundary exactly when the string is
non-empty and its first character occupies a single UTF-8 byte, so the
empty string and a multi-byte first character both panic.  StringSplit
mirrors find, split_at and the suffix slice to[sep.len()..] at character
level. -/
def callBuiltin (env : Env) (b : BuiltInFn) (arg : Value) : Except Err Value :=
  match b with
  | .FileRead =>
    match arg with
    | .String s =>
      match assocLookup env.fs s with
      | some content => .ok (.String content)
      | none => .error .panic
    | _ => .error .panic
  | .Print =>
    match arg with
    | .String _ => .ok .Unit
    | _ => .error .panic
  | .Printi =>
    match arg with
    | .Integer _ => .ok .Unit
    | _ => .error .panic
  | .StringParseInt =>
    match arg with
    | .String s =>
      match parseI64 s with
      | some i => .ok (.Integer i)
      | none => .error .panic
    | _ => .error .panic
  | .StringGetFirst =>
    match arg with
    | .String s =>
      match s.data with
      | [] => .error .panic
      | c :: rest =>
        if c.utf8Size = 1 then
          .ok (.Tuple [.String (String.mk [c]), .String (String.mk rest)])
        else .error .panic
    | _ => .error .panic
  | .StringSplit =>
    match arg with
    | .Tuple vs =>
      match vs with
      | [.String input, .String sep] =>
        match findSubAux sep.data input.data 0 with
        | some i =>
          .ok (.Tuple [.String (String.mk (input.data.take i)),
            .String (String.mk (input.data.drop (i + sep.data.length)))])
        | none => .ok (.Tuple [.String input, .String (String.mk [])])
      | _ => .error .panic
    | _ => .error .panic

/-- The BinaryOp value combination (interpret.rs lines 260 to 287).  The
first argument is the first value popped from the stack, which is the
result of the rhs operand (pushed last); the second is the second pop, the
lhs result: the Rust match names them r and l accordingly, and the result
is l op r on i64.  Division and remainder panic exactly when the Rust i64
operators do, in every build profile: on a zero divisor, and on the single
overflowing pair of the least i64 with minus one; otherwise they truncate
toward zero.  Sum, difference and product wrap two's-complement into the
signed 64-bit range, the behavior of the Rust operators without overflow
checks; a build with overflow checks panics on overflow instead, and every
theorem below asserting one of these three operators carries an in-range
hypothesis under which the wrap is the identity, so nothing proved depends
on the build profile.  Comparisons produce the integers 0 and 1; BinOpAnd
and BinOpOr are the bitwise i64 operations, closed on the range. -/
def evalBinOp (op : Operator) (firstPop : Value) (secondPop : Value) :
    Except Err Value :=
  match firstPop, secondPop with
  | .Integer r, .Integer l =>
    match op with
    | .BinOpAdd => .ok (.Integer (wrapI64 (l + r)))
    | .BinOpSub => .ok (.Integer (wrapI64 (l - r)))
    | .BinOpMul => .ok (.Integer (wrapI64 (l * r)))
    | .BinOpDiv =>
      if r = 0 ∨ (l = i64Min ∧ r = -1) then .error .panic
      else .ok (.Integer (Int.tdiv l r))
    | .BinOpLess => .ok (.Integer (if l < r then 1 else 0))
    | .BinOpLessEq => .ok (.Integer (if l ≤ r then 1 else 0))
    | .BinOpGreater => .ok (.Integer (if l > r then 1 else 0))
    | .BinOpGreaterEq => .ok (.Integer (if l ≥ r then 1 else 0))
    | .BinOpEquals => .ok (.Integer (if l = r then 1 else 0))
    | .BinOpAnd => .ok (.Integer (Int.land l r))
    | .BinOpOr => .ok (.Integer (Int.lor l r))
    | .BinOpMod =>
      if r = 0 ∨ (l = i64Min ∧ r = -1) then .error .panic
      else .ok (.Integer (Int.tmod l r))
  | .String r, .String l =>
    match op with
    | .BinOpEquals => .ok (.Integer (if l = r then 1 else 0))
    | _ => .error .panic
  | _, _ => .error .panic

/-- Install the capture of a match arm, if the arm declares one
(the binding.iter().for_each insert of the MatchSum case). -/
def bindCapture (σ : Bindings) (ob : Option String) (v : Value) : Bindings :=
  match ob with
  | some nm => insertBinding σ nm v
  | none => σ

/-- Remove the capture of a match arm again, if the arm declared one
(the binding.iter().for_each remove of the MatchSum case). -/
def dropCapture (σ : Bindings) (ob : Option String) : Bindings :=
  match ob with
  | some nm => removeBinding σ nm
  | none => σ

mutual

/-- The evaluator (interpret.rs eval_expr, lines 126 to 322), with the
Rust value stack replaced by the returned value and the mutable binding map
threaded through.  Each case is in source order and mirrors its Rust arm;
the fuel argument is passed through unchanged everywhere except on entry
into a function body (see applyOne and callFunction). -/
def eval (env : Env) : Nat → Bindings → ExprT → Except Err (Value × Bindings)
  | fuel, σ, .Tuple es => do
    let (vs, σ1) ← evalList env fuel σ es
    pure (.Tuple vs, σ1)
  | fuel, σ, .LetBinding name rhs body => do
    let (rv, σ1) ← eval env fuel σ rhs
    let (bv, σ2) ← eval env fuel (insertBinding σ1 name rv) body
    pure (bv, removeBinding σ2 name)
  | fuel, σ, .MatchSum matchee arms => do
    let (mv, σ1) ← eval env fuel σ matchee
    match mv with
    | .Variant _th vi payload => matchArms env fuel σ1 vi payload arms
    | _ => .error .panic
  | fuel, σ, .Application lhs args => do
    let (f0, σ0) ← eval env fuel σ lhs
    applyArgs env fuel σ0 f0 args
  | _fuel, σ, .Lambda p body => pure (.Function p σ body, σ)
  | _fuel, σ, .BooleanLiteral b => pure (.Integer (if b then 1 else 0), σ)
  | fuel, σ, .Conditional cond cons alt => do
    let (cv, σ1) ← eval env fuel σ cond
    match cv with
    | .Integer 0 => eval env fuel σ1 alt
    | _ => eval env fuel σ1 cons
  | _fuel, σ, .Symbol s =>
    match assocLookup env.rootScope s with
    | some (.Lambda p body) => pure (.Function p [] body, σ)
    | some (.BuiltInFn f) => pure (.BuiltInFn f, σ)
    | some _ => .error .panic
    | none =>
      match lookupBinding σ s with
      | some v => pure (v, σ)
      | none => .error .panic
  | fuel, σ, .Record fields => do
    let (vs, σ1) ← evalList env fuel σ fields
    pure (.Tuple vs, σ1)
  | fuel, σ, .BinaryOp op lhs rhs => do
    let (lv, σ1) ← eval env fuel σ lhs
    let (rv, σ2) ← eval env fuel σ1 rhs
    let v ← evalBinOp op rv lv
    pure (v, σ2)
  | _fuel, σ, .StringLiteral s => pure (.String s, σ)
  | _fuel, σ, .IntegerLiteral i => pure (.Integer i, σ)
  | _fuel, σ, .VariantConstructor th vi =>
    match env.types.get? th with
    | some (.Sum variants) =>
      if vi < variants.length then pure (.VariantConstructorFn th vi, σ)
      else .error .panic
    | _ => .error .panic
  | _fuel, σ, .BuiltInFn f => pure (.BuiltInFn f, σ)
  | fuel, σ, .FieldAccess lhs i => do
    let (v, σ1) ← eval env fuel σ lhs
    match v with
    | .Tuple vs =>
      match vs.get? i with
      | some x => pure (x, σ1)
      | none => .error .panic
    | _ => .error .panic
  | _fuel, σ, .Unit => pure (.Unit, σ)
  termination_by fuel _ e => (fuel, sizeOf e, 0)

/-- Left-to-right evaluation of an expression list, collecting the values
(the loops of the Tuple and Record cases). -/
def evalList (env : Env) : Nat → Bindings → List ExprT →
    Except Err (List Value × Bindings)
  | _fuel, σ, [] => pure ([], σ)
  | fuel, σ, e :: es => do
    let (v, σ1) ← eval env fuel σ e
    let (vs, σ2) ← evalList env fuel σ1 es
    pure (v :: vs, σ2)
  termination_by fuel _ es => (fuel, sizeOf es, 1)

/-- The arm scan of the MatchSum case: arms are tried in declaration
order; the first whose variant index equals the scrutinee tag has its
optional capture bound to the payload, its body evaluated, and the capture
removed again; falling off the end is the no-matching-arm panic. -/
def matchArms (env : Env) : Nat → Bindings → Nat → Value →
    List (Nat × Option String × ExprT) → Except Err (Value × Bindings)
  | _fuel, _σ, _vi, _payload, [] => .error .panic
  | fuel, σ, vi, payload, (armI, ob, body) :: rest =>
    if armI = vi then do
      let (bv, σ2) ← eval env fuel (bindCapture σ ob payload) body
      pure (bv, dropCapture σ2 ob)
    else matchArms env fuel σ vi payload rest
  termination_by fuel _ _ _ arms => (fuel, sizeOf arms, 1)

/-- The argument loop of the Application case: fold left over the argument
expressions, each step applying the current callable to the next argument
and making the result the callee for the following one. -/
def applyArgs (env : Env) : Nat → Bindings → Value → List ExprT →
    Except Err (Value × Bindings)
  | _fuel, σ, v, [] => pure (v, σ)
  | fuel, σ, f, e :: es => do
    let (v1, σ1) ← applyOne env fuel σ f e
    applyArgs env fuel σ1 v1 es
  termination_by fuel _ _ es => (fuel, sizeOf es, 1)

/-- One iteration of the Application loop: dispatch on the shape of the
current callable.  A Function evaluates the argument in the scope of the
caller and then runs its body through callFunction, restoring the caller
bindings afterwards (the bindings_tmp save and restore of the source); a
VariantConstructorFn wraps the argument value; a BuiltInFn dispatches it;
anything else is the Not good panic, raised without evaluating the
argument expression. -/
def applyOne (env : Env) : Nat → Bindings → Value → ExprT →
    Except Err (Value × Bindings)
  | fuel, σ, .Function p captured body, e => do
    let (rv, σa) ← eval env fuel σ e
    match fuel with
    | 0 => .error .outOfFuel
    | n + 1 => do
      let bv ← callFunction env n p captured body rv
      pure (bv, σa)
  | fuel, σ, .VariantConstructorFn th vi, e => do
    let (rv, σa) ← eval env fuel σ e
    pure (.Variant th vi rv, σa)
  | fuel, σ, .BuiltInFn f, e => do
    let (rv, σa) ← eval env fuel σ e
    let v ← callBuiltin env f rv
    pure (v, σa)
  | _fuel, _σ, _, _ => .error .panic
  termination_by fuel _ _ e => (fuel, sizeOf e, 1)

/-- Running a Function body: the call scope is built from scratch by
inserting the captured snapshot entries in order and then the parameter
(the clear plus insert loop of the source), the body is evaluated in it,
and only the resulting value escapes, the caller bindings being restored
unchanged by applyOne. -/
def callFunction (env : Env) (fuel : Nat) (p : String)
    (captured : List (String × Value)) (body : ExprT) (rv : Value) :
    Except Err Value := do
  let σf := insertBinding
    (captured.foldl (fun acc kv => insertBinding acc kv.1 kv.2) []) p rv
  let (bv, _) ← eval env fuel σf body
  pure bv
  termination_by (fuel, sizeOf body, 1)

end

/-! Concrete environments used to instantiate the theorems below. -/

/-- An environment with no top-level bindings, no type definitions and an
empty file table. -/
def envEmpty : Env := ⟨[], [], []⟩

/-- An environment whose only top-level binding is a lambda named f,
used to probe symbol-resolution order against a same-named local. -/
def envGlobalLambda : Env := ⟨[("f", .Lambda "y" (.Symbol "y"))], [], []⟩

/-- An environment declaring one sum type with two variants, used for
pattern-match evaluation. -/
def envSum : Env := ⟨[], [.Sum ["A", "B"]], []⟩

/-- An environment whose only top-level binding is a non-lambda,
non-builtin definition, used to probe the fatal Symbol branch. -/
def envGlobalConst : Env := ⟨[("c", .IntegerLiteral 3)], [], []⟩

/-- Claim C1: evaluating a LetBinding whose name shadows an existing local
binding is claimed to restore the shadowed value after the body; the code
instead deletes the name outright (bindings.remove), so referencing the
name after an inner shadowing let exits is fatal rather than yielding the
outer value.  First conjunct: the program let x = 1 in ((let x = 2 in x)
plus x) panics, where the claim requires the value 3.  Second conjunct: the
plain nested shadowing let x = 1 in (let x = 2 in x) does yield 2, so only
the restore half fails. -/
theorem C1_let_shadow_restore_fails :
    eval envEmpty 1 [] (.LetBinding "x" (.IntegerLiteral 1)
        (.BinaryOp .BinOpAdd (.LetBinding "x" (.IntegerLiteral 2) (.Symbol "x"))
          (.Symbol "x"))) = .error .panic ∧
    eval envEmpty 1 [] (.LetBinding "x" (.IntegerLiteral 1)
        (.LetBinding "x" (.IntegerLiteral 2) (.Symbol "x"))) =
      .ok (.Integer 2, []) := by
  constructor <;>
    simp [eval, evalBinOp, insertBinding, removeBinding, lookupBinding,
      assocLookup, envEmpty, Bind.bind, Except.bind, pure, Except.pure]

/-- Claim C2: Symbol lookup is claimed to consult the local scope first and
the global table only as a fallback; the code consults the global table
first (interpret.rs line 224), so a name bound both locally and as a
top-level lambda resolves to the global function value, not the local
value. -/
theorem C2_symbol_resolution_global_first :
    eval envGlobalLambda 1 [("f", .Integer 5)] (.Symbol "f") =
      .ok (.Function "y" [] (.Symbol "y"), [("f", .Integer 5)]) ∧
    eval envGlobalLambda 1 [("f", .Integer 5)] (.Symbol "f") ≠
      .ok (.Integer 5, [("f", .Integer 5)]) := by
  constructor <;>
    simp [eval, assocLookup, lookupBinding, envGlobalLambda,
      Bind.bind, Except.bind, pure, Except.pure]

/-- Claim C9: a Symbol whose name is present in the global table with a
definition that is neither a lambda nor a builtin declaration evaluates to
the panic error, regardless of the local scope, which is never consulted
in that case. -/
theorem C9_global_non_callable_fatal (env : Env) (fuel : Nat) (σ : Bindings)
    (s : String) (e : ExprT)
    (hg : assocLookup env.rootScope s = some e)
    (hlam : ∀ p body, e ≠ .Lambda p body)
    (hbi : ∀ f, e ≠ .BuiltInFn f) :
    eval env fuel σ (.Symbol s) = .error .panic := by
  cases e <;>
    first
      | exact absurd rfl (hlam _ _)
      | exact absurd rfl (hbi _)
      | simp [eval, hg]

/-- Witness for C9: the global table of envGlobalConst binds c to an
integer literal, the local scope also binds c, and the lookup panics. -/
theorem C9_witness :
    eval envGlobalConst 1 [("c", .Integer 9)] (.Symbol "c") = .error .panic :=
  C9_global_non_callable_fatal envGlobalConst 1 [("c", .Integer 9)] "c"
    (.IntegerLiteral 3) (by simp [envGlobalConst, assocLookup])
    (fun p body h => ExprT.noConfusion h) (fun f h => ExprT.noConfusion h)

/-- Wrap-around is the identity on the signed 64-bit range. -/
theorem wrapI64_eq_self {i : Int} (hlo : i64Min ≤ i) (hhi : i ≤ i64Max) :
    wrapI64 i = i := by
  unfold wrapI64
  unfold i64Min at hlo
  unfold i64Max at hhi
  omega

/-- Counterexample to claim C6 as stated: dividing the least 64-bit
integer by minus one is fatal, and so is taking the remainder, although
the divisor is not zero; the claim allows a fatal outcome only for a zero
divisor and otherwise requires the value lhs op rhs, which here would be
the out-of-range two to the sixty-third power (respectively zero).  This
is the unconditional overflow panic of Rust i64 division, present in
every build profile. -/
theorem C6_counterexample :
    ((-1 : Int) ≠ 0) ∧
    eval envEmpty 1 [] (.BinaryOp .BinOpDiv (.IntegerLiteral i64Min)
        (.IntegerLiteral (-1))) = .error .panic ∧
    eval envEmpty 1 [] (.BinaryOp .BinOpMod (.IntegerLiteral i64Min)
        (.IntegerLiteral (-1))) = .error .panic := by
  refine ⟨by decide, ?_, ?_⟩ <;>
    simp [eval, evalBinOp, i64Min, Bind.bind, Except.bind, pure, Except.pure]

/-- Claim C6 amended: a BinaryOp whose operands evaluate to integers
evaluates the operands left to right (the rhs in the binding store left by
the lhs) and combines them as lhs op rhs, with these provisos forced by
i64 arithmetic: quotient and remainder truncate toward zero and are fatal
on a zero divisor and on the overflowing dividend-divisor pair of the
least i64 with minus one; sum, difference and product are the exact values
whenever those lie in the signed 64-bit range; comparisons yield the
integers 1 and 0; bitwise conjunction and disjunction are exact. -/
theorem C6_binop_integer_amended (env : Env) (fuel : Nat)
    (σ σ1 σ2 : Bindings) (op : Operator) (e1 e2 : ExprT) (l r : Int)
    (h1 : eval env fuel σ e1 = .ok (.Integer l, σ1))
    (h2 : eval env fuel σ1 e2 = .ok (.Integer r, σ2)) :
    (op = .BinOpAdd → i64Min ≤ l + r → l + r ≤ i64Max →
      eval env fuel σ (.BinaryOp op e1 e2) = .ok (.Integer (l + r), σ2)) ∧
    (op = .BinOpSub → i64Min ≤ l - r → l - r ≤ i64Max →
      eval env fuel σ (.BinaryOp op e1 e2) = .ok (.Integer (l - r), σ2)) ∧
    (op = .BinOpMul → i64Min ≤ l * r → l * r ≤ i64Max →
      eval env fuel σ (.BinaryOp op e1 e2) = .ok (.Integer (l * r), σ2)) ∧
    (op = .BinOpDiv →
      eval env fuel σ (.BinaryOp op e1 e2) =
        if r = 0 ∨ (l = i64Min ∧ r = -1) then .error .panic
        else .ok (.Integer (Int.tdiv l r), σ2)) ∧
    (op = .BinOpMod →
      eval env fuel σ (.BinaryOp op e1 e2) =
        if r = 0 ∨ (l = i64Min ∧ r = -1) then .error .panic
        else .ok (.Integer (Int.tmod l r), σ2)) ∧
    (op = .BinOpLess →
      eval env fuel σ (.BinaryOp op e1 e2) =
        .ok (.Integer (if l < r then 1 else 0), σ2)) ∧
    (op = .BinOpLessEq →
      eval env fuel σ (.BinaryOp op e1 e2) =
        .ok (.Integer (if l ≤ r then 1 else 0), σ2)) ∧
    (op = .BinOpGreater →
      eval env fuel σ (.BinaryOp op e1 e2) =
        .ok (.Integer (if l > r then 1 else 0), σ2)) ∧
    (op = .BinOpGreaterEq →
      eval env fuel σ (.BinaryOp op e1 e2) =
        .ok (.Integer (if l ≥ r then 1 else 0), σ2)) ∧
    (op = .BinOpEquals →
      eval env fuel σ (.BinaryOp op e1 e2) =
        .ok (.Integer (if l = r then 1 else 0), σ2)) ∧
    (op = .BinOpAnd →
      eval env fuel σ (.BinaryOp op e1 e2) =
        .ok (.Integer (Int.land l r), σ2)) ∧
    (op = .BinOpOr →
      eval env fuel σ (.BinaryOp op e1 e2) =
        .ok (.Integer (Int.lor l r), σ2)) := by
  refine ⟨?_, ?_, ?_, ?_, ?_, ?_, ?_, ?_, ?_, ?_, ?_, ?_⟩ <;>
    intro heq <;> subst heq
  all_goals
    first
      | (intro hlo hhi
         simp [eval, h1, h2, evalBinOp, Bind.bind, Except.bind, pure,
           Except.pure, wrapI64_eq_self hlo hhi])
      | (by_cases hc : r = 0 ∨ (l = i64Min ∧ r = -1) <;>
          simp [eval, h1, h2, evalBinOp, hc, Bind.bind, Except.bind, pure,
            Except.pure])

/-- Witness for C6: addition of 3 and 4, in range, yields 7; division of 7
by 2 truncates to 3; the remainder of 7 by 2 is 1; division by zero is
fatal. -/
theorem C6_witness :
    eval envEmpty 1 [] (.BinaryOp .BinOpAdd (.IntegerLiteral 3)
        (.IntegerLiteral 4)) = .ok (.Integer 7, []) ∧
    eval envEmpty 1 [] (.BinaryOp .BinOpDiv (.IntegerLiteral 7)
        (.IntegerLiteral 2)) = .ok (.Integer 3, []) ∧
    eval envEmpty 1 [] (.BinaryOp .BinOpMod (.IntegerLiteral 7)
        (.IntegerLiteral 2)) = .ok (.Integer 1, []) ∧
    eval envEmpty 1 [] (.BinaryOp .BinOpDiv (.IntegerLiteral 7)
        (.IntegerLiteral 0)) = .error .panic := by
  refine ⟨?_, ?_, ?_, ?_⟩
  · exact (C6_binop_integer_amended envEmpty 1 [] [] [] .BinOpAdd
      (.IntegerLiteral 3) (.IntegerLiteral 4) 3 4
      (by simp [eval, pure, Except.pure])
      (by simp [eval, pure, Except.pure])).1 rfl (by decide) (by decide)
  · have h := (C6_binop_integer_amended envEmpty 1 [] [] [] .BinOpDiv
      (.IntegerLiteral 7) (.IntegerLiteral 2) 7 2
      (by simp [eval, pure, Except.pure])
      (by simp [eval, pure, Except.pure])).2.2.2.1 rfl
    exact h.trans (by norm_num [i64Min]; decide)
  · have h := (C6_binop_integer_amended envEmpty 1 [] [] [] .BinOpMod
      (.IntegerLiteral 7) (.IntegerLiteral 2) 7 2
      (by simp [eval, pure, Except.pure])
      (by simp [eval, pure, Except.pure])).2.2.2.2.1 rfl
    exact h.trans (by norm_num [i64Min]; decide)
  · have h := (C6_binop_integer_amended envEmpty 1 [] [] [] .BinOpDiv
      (.IntegerLiteral 7) (.IntegerLiteral 0) 7 0
      (by simp [eval, pure, Except.pure])
      (by simp [eval, pure, Except.pure])).2.2.2.1 rfl
    exact h.trans (by norm_num)

/-- Counterexample to claim C8 as stated: the one-character string built
from the two-byte character used in the word edition is non-empty, yet
StringGetFirst panics on it instead of returning the character and the
empty remainder, because the byte slicing s[0..1] falls inside the
character. -/
theorem C8_counterexample :
    (String.mk ['é']).data ≠ [] ∧
    callBuiltin envEmpty .StringGetFirst (.String (String.mk ['é'])) =
      .error .panic := by
  constructor
  · decide
  · simp [callBuiltin]; decide

/-- Claim C8 amended: on a non-empty string whose first character occupies
a single UTF-8 byte, StringGetFirst returns the pair of that character as a
one-character string and the remainder; on the empty string it panics. -/
theorem C8_get_first_amended (env : Env) (s : String) (c : Char)
    (rest : List Char) (h1 : s.data = c :: rest) (h2 : c.utf8Size = 1) :
    callBuiltin env .StringGetFirst (.String s) =
      .ok (.Tuple [.String (String.mk [c]), .String (String.mk rest)]) ∧
    callBuiltin env .StringGetFirst (.String (String.mk [])) =
      .error .panic := by
  constructor
  · simp [callBuiltin, h1, h2]
  · simp [callBuiltin]

/-- Witness for C8: splitting the string ab yields the strings a and b,
and the empty string panics. -/
theorem C8_witness :
    callBuiltin envEmpty .StringGetFirst (.String "ab") =
      .ok (.Tuple [.String "a", .String "b"]) ∧
    callBuiltin envEmpty .StringGetFirst (.String (String.mk [])) =
      .error .panic :=
  C8_get_first_amended envEmpty "ab" 'a' ['b'] rfl rfl

/-- Claim C10: StringGetFirst splits at the first byte, not the first
character: whenever the first character of a non-empty string occupies
more than one UTF-8 byte the call panics, and the character-based contract
holds exactly when the first character is a single byte. -/
theorem C10_get_first_byte_based (env : Env) (s : String) (c : Char)
    (rest : List Char) (h1 : s.data = c :: rest) (h2 : 1 < c.utf8Size) :
    callBuiltin env .StringGetFirst (.String s) = .error .panic ∧
    ∀ (s2 : String) (c2 : Char) (rest2 : List Char), s2.data = c2 :: rest2 →
      c2.utf8Size = 1 →
      callBuiltin env .StringGetFirst (.String s2) =
        .ok (.Tuple [.String (String.mk [c2]), .String (String.mk rest2)]) := by
  constructor
  · have : c.utf8Size ≠ 1 := by omega
    simp [callBuiltin, h1, this]
  · intro s2 c2 rest2 g1 g2
    simp [callBuiltin, g1, g2]

/-- Witness for C10: the French word for edition starts with a two-byte
character and StringGetFirst panics on it, while the ASCII string ab is
split into a and b. -/
theorem C10_witness :
    callBuiltin envEmpty .StringGetFirst
      (.String (String.mk ['é', 'd', 'i', 't', 'i', 'o', 'n'])) =
      .error .panic ∧
    callBuiltin envEmpty .StringGetFirst (.String "ab") =
      .ok (.Tuple [.String "a", .String "b"]) := by
  have h := C10_get_first_byte_based envEmpty
    (String.mk ['é', 'd', 'i', 't', 'i', 'o', 'n']) 'é'
    ['d', 'i', 't', 'i', 'o', 'n'] rfl (by decide)
  exact ⟨h.1, h.2 "ab" 'a' ['b'] rfl rfl⟩

/-- Arms whose variant index differs from the scrutinee tag are skipped
without any effect, so a leading run of non-matching arms can be dropped. -/
theorem matchArms_skip (env : Env) (fuel : Nat) (σ : Bindings) (vi : Nat)
    (payload : Value) (pre rest : List (Nat × Option String × ExprT))
    (h : ∀ a ∈ pre, a.1 ≠ vi) :
    matchArms env fuel σ vi payload (pre ++ rest) =
      matchArms env fuel σ vi payload rest := by
  induction pre with
  | nil => simp
  | cons hd tl ih =>
    obtain ⟨ai, ob, body⟩ := hd
    have hne : ai ≠ vi := h (ai, ob, body) (by simp)
    rw [List.cons_append]
    simp only [matchArms, if_neg hne]
    exact ih (fun a ha => h a (List.mem_cons_of_mem _ ha))

/-- Claim C3: application folds left over the argument list, so evaluating
a two-argument Application is the same as applying the result of the
one-argument application to the second argument; the equality holds for
every callee and argument expressions, with the same fuel on both sides
because fuel is only spent on function-body entry. -/
theorem C3_currying (env : Env) (fuel : Nat) (σ : Bindings) (f a b : ExprT) :
    eval env fuel σ (.Application f [a, b]) =
      eval env fuel σ (.Application (.Application f [a]) [b]) := by
  simp only [eval]
  cases hf : eval env fuel σ f with
  | error e => simp [Bind.bind, Except.bind]
  | ok vp =>
    obtain ⟨f0, σ0⟩ := vp
    simp only [Bind.bind, Except.bind, applyArgs]
    cases ha : applyOne env fuel σ0 f0 a with
    | error e => simp
    | ok vp1 =>
      obtain ⟨v1, σ1⟩ := vp1
      simp [applyArgs, pure, Except.pure, Bind.bind, Except.bind]

/-- Claim C4: a Lambda evaluates to a Function carrying the local scope at
the moment of evaluation as its captured snapshot (first conjunct), and
applying a Function value computes its result through callFunction, which
runs the body in the snapshot plus the parameter binding only: neither the
scope of the caller at application time nor any rebinding of the defining
scope after creation can influence it, and the caller bindings after the
argument evaluation are restored unchanged (second conjunct). -/
theorem C4_closure_snapshot (env : Env) :
    (∀ (fuel : Nat) (σ : Bindings) (p : String) (body : ExprT),
      eval env fuel σ (.Lambda p body) = .ok (.Function p σ body, σ)) ∧
    (∀ (n : Nat) (σ σ0 σa : Bindings) (fe arg : ExprT) (p : String)
      (cap : List (String × Value)) (body : ExprT) (rv : Value),
      eval env (n + 1) σ fe = .ok (.Function p cap body, σ0) →
      eval env (n + 1) σ0 arg = .ok (rv, σa) →
      eval env (n + 1) σ (.Application fe [arg]) =
        (callFunction env n p cap body rv).map (fun bv => (bv, σa))) := by
  constructor
  · intro fuel σ p body
    simp [eval, pure, Except.pure]
  · intro n σ σ0 σa fe arg p cap body rv hf ha
    simp only [eval, hf, Bind.bind, Except.bind, applyArgs, applyOne, ha]
    cases hc : callFunction env n p cap body rv <;>
      simp [applyArgs, pure, Except.pure, Bind.bind, Except.bind, Except.map]

/-- Witness for C4: a lambda evaluated under a scope binding z to 4
captures that scope, and applying it later returns 4, the caller
bindings being restored. -/
theorem C4_witness :
    eval envEmpty 2 [("z", .Integer 4)]
        (.Application (.Lambda "y" (.Symbol "z")) [.IntegerLiteral 7]) =
      (callFunction envEmpty 1 "y" [("z", .Integer 4)] (.Symbol "z")
          (.Integer 7)).map (fun bv => (bv, [("z", .Integer 4)])) ∧
    eval envEmpty 2 [("z", .Integer 4)]
        (.Application (.Lambda "y" (.Symbol "z")) [.IntegerLiteral 7]) =
      .ok (.Integer 4, [("z", .Integer 4)]) := by
  have h := (C4_closure_snapshot envEmpty).2 1 [("z", .Integer 4)]
    [("z", .Integer 4)] [("z", .Integer 4)] (.Lambda "y" (.Symbol "z"))
    (.IntegerLiteral 7) "y" [("z", .Integer 4)] (.Symbol "z") (.Integer 7)
    ((C4_closure_snapshot envEmpty).1 2 [("z", .Integer 4)] "y" (.Symbol "z"))
    (by simp [eval, pure, Except.pure])
  refine ⟨h, h.trans ?_⟩
  simp [callFunction, eval, insertBinding, removeBinding, lookupBinding,
    assocLookup, envEmpty, Bind.bind, Except.bind, pure, Except.pure,
    Except.map]

/-- Claim C5: matching a Variant value selects the first arm, in
declaration order, whose index equals the scrutinee tag, binds the capture
name of the arm, if declared, to the payload around the body evaluation
(first conjunct); with no matching arm evaluation panics (second
conjunct); and a non-Variant scrutinee panics (third conjunct). -/
theorem C5_match_first_arm (env : Env) (fuel : Nat) (σ : Bindings)
    (matchee : ExprT) :
    (∀ (th : TypeHandle) (vi : Nat) (payload : Value) (σ1 : Bindings)
      (pre post : List (Nat × Option String × ExprT)) (ob : Option String)
      (body : ExprT),
      eval env fuel σ matchee = .ok (.Variant th vi payload, σ1) →
      (∀ a ∈ pre, a.1 ≠ vi) →
      eval env fuel σ (.MatchSum matchee (pre ++ (vi, ob, body) :: post)) =
        do
          let (bv, σ2) ← eval env fuel (bindCapture σ1 ob payload) body
          pure (bv, dropCapture σ2 ob)) ∧
    (∀ (th : TypeHandle) (vi : Nat) (payload : Value) (σ1 : Bindings)
      (arms : List (Nat × Option String × ExprT)),
      eval env fuel σ matchee = .ok (.Variant th vi payload, σ1) →
      (∀ a ∈ arms, a.1 ≠ vi) →
      eval env fuel σ (.MatchSum matchee arms) = .error .panic) ∧
    (∀ (v : Value) (σ1 : Bindings)
      (arms : List (Nat × Option String × ExprT)),
      eval env fuel σ matchee = .ok (v, σ1) →
      (∀ th vi payload, v ≠ .Variant th vi payload) →
      eval env fuel σ (.MatchSum matchee arms) = .error .panic) := by
  refine ⟨?_, ?_, ?_⟩
  · intro th vi payload σ1 pre post ob body hm hpre
    simp only [eval, hm, Bind.bind, Except.bind]
    rw [matchArms_skip env fuel σ1 vi payload pre _ hpre]
    simp [matchArms, Bind.bind, Except.bind]
  · intro th vi payload σ1 arms hm harms
    simp only [eval, hm, Bind.bind, Except.bind]
    have h := matchArms_skip env fuel σ1 vi payload arms [] harms
    rw [List.append_nil] at h
    rw [h]
    simp [matchArms]
  · intro v σ1 arms hm hv
    cases v <;>
      first
        | exact absurd rfl (hv _ _ _)
        | simp [eval, hm, Bind.bind, Except.bind]

/-- Witness for C5: a value tagged with variant index 1 of a two-variant
sum type selects the middle arm, the first whose index is 1, regardless of
the later index-1 arm, binds the capture y to the payload 9 and returns
it. -/
theorem C5_witness :
    eval envSum 5 []
        (.MatchSum (.Application (.VariantConstructor 0 1) [.IntegerLiteral 9])
          [(0, none, .IntegerLiteral 1), (1, some "y", .Symbol "y"),
            (1, none, .IntegerLiteral 3)]) = .ok (.Integer 9, []) := by
  have h := (C5_match_first_arm envSum 5 []
      (.Application (.VariantConstructor 0 1) [.IntegerLiteral 9])).1
    0 1 (.Integer 9) [] [(0, none, .IntegerLiteral 1)]
    [(1, none, .IntegerLiteral 3)] (some "y") (.Symbol "y")
    (by simp [eval, applyArgs, applyOne, envSum, Bind.bind, Except.bind,
      pure, Except.pure])
    (by simp)
  simp only [List.cons_append, List.nil_append] at h
  rw [h]
  simp [eval, bindCapture, dropCapture, insertBinding, removeBinding,
    lookupBinding, assocLookup, envSum, Bind.bind, Except.bind, pure,
    Except.pure]

/-- Boolean prefix test versus the propositional prefix order on
character lists. -/
theorem isPrefixOfEq {l1 l2 : List Char} :
    l1.isPrefixOf l2 = true ↔ l1 <+: l2 :=
  List.isPrefixOf_iff_prefix

/-- If the scan finds no occurrence, the pattern is a prefix of no suffix
of the text. -/
theorem findSubAux_none (sep : List Char) :
    ∀ (xs : List Char) (k : Nat), findSubAux sep xs k = none →
      ∀ j, ¬ sep <+: xs.drop j := by
  intro xs
  induction xs with
  | nil =>
    intro k h j hc
    rw [List.drop_nil] at hc
    have : sep.isPrefixOf ([] : List Char) := isPrefixOfEq.mpr hc
    simp [findSubAux, this] at h
  | cons x t ih =>
    intro k h j
    by_cases hp : sep.isPrefixOf (x :: t)
    · simp [findSubAux, hp] at h
    · have h2 : findSubAux sep t (k + 1) = none := by
        simpa [findSubAux, hp] using h
      cases j with
      | zero =>
        exact fun hc => hp (isPrefixOfEq.mpr hc)
      | succ j2 =>
        simpa using ih (k + 1) h2 j2

/-- If the scan started at counter k returns an index, that index is k plus
the offset of the first occurrence: the pattern is a prefix of the suffix
at that offset and of no earlier suffix. -/
theorem findSubAux_some (sep : List Char) :
    ∀ (xs : List Char) (k i : Nat), findSubAux sep xs k = some i →
      ∃ m, i = k + m ∧ sep <+: xs.drop m ∧ ∀ j < m, ¬ sep <+: xs.drop j := by
  intro xs
  induction xs with
  | nil =>
    intro k i h
    by_cases hp : sep.isPrefixOf ([] : List Char)
    · have hik : k = i := Option.some.inj (by simpa [findSubAux, hp] using h)
      refine ⟨0, by omega, ?_, by omega⟩
      simpa using isPrefixOfEq.mp hp
    · simp [findSubAux, hp] at h
  | cons x t ih =>
    intro k i h
    by_cases hp : sep.isPrefixOf (x :: t)
    · have hik : k = i := Option.some.inj (by simpa [findSubAux, hp] using h)
      refine ⟨0, by omega, ?_, by omega⟩
      simpa using isPrefixOfEq.mp hp
    · have h2 : findSubAux sep t (k + 1) = some i := by
        simpa [findSubAux, hp] using h
      obtain ⟨m, him, hpre, hmin⟩ := ih (k + 1) i h2
      refine ⟨m + 1, by omega, by simpa using hpre, ?_⟩
      intro j hj
      cases j with
      | zero => exact fun hc => hp (isPrefixOfEq.mpr hc)
      | succ j2 => simpa using hmin j2 (by omega)

/-- Absence of an occurrence need only be checked up to the text length:
every longer drop is the empty list, already covered at the length
itself. -/
theorem noOccurrenceOfBounded (sep xs : List Char)
    (h : ∀ i ≤ xs.length, ¬ sep <+: xs.drop i) :
    ∀ i, ¬ sep <+: xs.drop i := by
  intro i
  by_cases hi : i ≤ xs.length
  · exact h i hi
  · have hnil : xs.drop i = [] := List.drop_eq_nil_of_le (by omega)
    rw [hnil]
    have h2 := h xs.length le_rfl
    rwa [List.drop_length] at h2

/-- Claim C7: on a pair of strings with a non-empty separator, StringSplit
returns the prefix of the input before the first occurrence of the
separator and the suffix after that occurrence (first conjunct, the
occurrence being given as a decomposition whose prefix is shortest); when
the separator does not occur anywhere it returns the input unchanged
paired with the empty string (second conjunct); and any argument that is
not a pair of two strings is fatal (third conjunct). -/
theorem C7_string_split (env : Env) (input sep : String) (hsep : sep ≠ "") :
    (∀ p q : List Char, input.data = p ++ sep.data ++ q →
      (∀ j < p.length, ¬ sep.data <+: input.data.drop j) →
      callBuiltin env .StringSplit (.Tuple [.String input, .String sep]) =
        .ok (.Tuple [.String (String.mk p), .String (String.mk q)])) ∧
    ((∀ i, ¬ sep.data <+: input.data.drop i) →
      callBuiltin env .StringSplit (.Tuple [.String input, .String sep]) =
        .ok (.Tuple [.String input, .String (String.mk [])])) ∧
    (∀ v : Value, (∀ a b : String, v ≠ .Tuple [.String a, .String b]) →
      callBuiltin env .StringSplit v = .error .panic) := by
  refine ⟨?_, ?_, ?_⟩
  · intro p q hin hmin
    have hocc : sep.data <+: input.data.drop p.length := by
      rw [hin, List.append_assoc, List.drop_left]
      exact ⟨q, rfl⟩
    cases hf : findSubAux sep.data input.data 0 with
    | none =>
      exact absurd hocc (findSubAux_none sep.data input.data 0 hf p.length)
    | some i =>
      obtain ⟨m, him, hpre, hm⟩ := findSubAux_some sep.data input.data 0 i hf
      have h1 : ¬ p.length < m := fun hlt => hm p.length hlt hocc
      have h2 : ¬ m < p.length := fun hlt => hmin m hlt hpre
      have hip : i = p.length := by omega
      have htake : input.data.take p.length = p := by
        rw [hin, List.append_assoc, List.take_left]
      have hdrop : input.data.drop (p.length + sep.data.length) = q := by
        rw [hin, List.append_assoc, ← List.drop_drop, List.drop_left,
          List.drop_left]
      simp only [callBuiltin, hf, hip, htake, hdrop]
  · intro hno
    cases hf : findSubAux sep.data input.data 0 with
    | some i =>
      obtain ⟨m, _, hpre, _⟩ := findSubAux_some sep.data input.data 0 i hf
      exact absurd hpre (hno m)
    | none => simp [callBuiltin, hf]
  · intro v hv
    cases v with
    | Tuple vs =>
      rcases vs with _ | ⟨a, vs1⟩
      · simp [callBuiltin]
      rcases vs1 with _ | ⟨b, vs2⟩
      · cases a <;> simp [callBuiltin]
      rcases vs2 with _ | ⟨c, vs3⟩
      · cases a <;> cases b <;>
          first
            | exact absurd rfl (hv _ _)
            | simp [callBuiltin]
      · cases a <;> cases b <;> simp [callBuiltin]
    | Unit => simp [callBuiltin]
    | Function p cap body => simp [callBuiltin]
    | String s => simp [callBuiltin]
    | Integer i => simp [callBuiltin]
    | Variant th vi payload => simp [callBuiltin]
    | VariantConstructorFn th vi => simp [callBuiltin]
    | BuiltInFn f => simp [callBuiltin]

/-- Witness for C7: splitting a comma-separated three-element string at
the first comma yields the head and the rest; splitting at a separator
that does not occur yields the input and the empty string. -/
theorem C7_witness :
    callBuiltin envEmpty .StringSplit (.Tuple [.String "a,b,c", .String ","]) =
      .ok (.Tuple [.String (String.mk ['a']),
        .String (String.mk ['b', ',', 'c'])]) ∧
    callBuiltin envEmpty .StringSplit (.Tuple [.String "abc", .String "|"]) =
      .ok (.Tuple [.String "abc", .String (String.mk [])]) := by
  constructor
  · exact (C7_string_split envEmpty "a,b,c" "," (by decide)).1
      ['a'] ['b', ',', 'c'] (by decide) (by decide)
  · exact (C7_string_split envEmpty "abc" "|" (by decide)).2.1
      (noOccurrenceOfBounded "|".data "abc".data (by decide))

end Interp
